import Mathlib

set_option maxRecDepth 8000

/-
A shallow embedding of the 1-billion-row-challenge Go program
(src/main.go and the near-duplicate variant src/unnamed/part_000),
together with theorems settling the specification claims about it.

Bytes are modelled as Nat (values 0..255); Go byte subtraction that can
wrap is modelled with an explicit mod 256.  Go slices of bytes are
List Nat; the Go builtin copy(dst, src), which overwrites
min(len dst, len src) elements and never extends dst, is modelled by
goCopy.  Fallible lookups return Option.
-/

/- ---------------------------------------------------------------
   Line splitting: bufio.Scanner with the default ScanLines split
   function (used by parseLines in both files).  Tokens are the
   newline-separated segments; a carriage return just before the
   newline is dropped; a final unterminated segment is returned as a
   token; a trailing newline does not produce an empty final token.
   --------------------------------------------------------------- -/

def dropCR (l : List Nat) : List Nat :=
  if l.getLast? = some 13 then l.dropLast else l

def splitLinesAux : List Nat → List Nat → List (List Nat)
  | [], acc => if acc.isEmpty then [] else [dropCR acc.reverse]
  | c :: rest, acc =>
    if c = 10 then dropCR acc.reverse :: splitLinesAux rest []
    else splitLinesAux rest (c :: acc)

def splitLines (chunk : List Nat) : List (List Nat) :=
  splitLinesAux chunk []

/- ---------------------------------------------------------------
   The rightmost-semicolon scan of parseLines (both files): a forward
   loop over the line recording the index of the last ';' (byte 59),
   starting from -1 (modelled as none).
   --------------------------------------------------------------- -/

def lastSemiAux : List Nat → Nat → Option Nat → Option Nat
  | [], _, r => r
  | c :: rest, i, r => lastSemiAux rest (i + 1) (if c = 59 then some i else r)

def lastSemiIdx (b : List Nat) : Option Nat :=
  lastSemiAux b 0 none

/- ---------------------------------------------------------------
   Temperature parsing.  Both files scan the line right to left from
   the last byte down to the byte after the semicolon.

   part_000 (correct version):
     skip '.', on '-' negate the accumulator and break, otherwise add
     int(b[i]-48) * power10 and multiply power10 by 10.
   The Go expression b[i]-48 is byte arithmetic (wraps mod 256).

   main.go (version with the slips):
     exponent is declared inside the loop body so it is 0 on every
     iteration; the weight is written 10 ^ exponent, which in Go is
     bitwise XOR, so the weight is Nat.xor 10 0 = 10 every time; the
     raw ASCII code int(b[i]) is used (no subtraction of 48); on '-'
     the accumulator is negated but the loop does not break, so the
     ASCII code of '-' times 10 is then added as well.

   Both are defined on the reversed suffix after the delimiter, which
   realises the right-to-left index loop.
   --------------------------------------------------------------- -/

def parseTempPartAux : List Nat → Int → Int → Int
  | [], acc, _ => acc
  | c :: rest, acc, pow =>
    if c = 46 then parseTempPartAux rest acc pow
    else if c = 45 then -acc
    else parseTempPartAux rest (acc + (((c + 208) % 256 : Nat) : Int) * pow) (pow * 10)

def parseTempPart (s : List Nat) : Int :=
  parseTempPartAux s.reverse 0 1

def parseTempMainAux : List Nat → Int → Int
  | [], acc => acc
  | c :: rest, acc =>
    if c = 46 then parseTempMainAux rest acc
    else
      parseTempMainAux rest
        ((if c = 45 then -acc else acc) + (c : Int) * ((Nat.xor 10 0 : Nat) : Int))

def parseTempMain (s : List Nat) : Int :=
  parseTempMainAux s.reverse 0

/- ---------------------------------------------------------------
   The aggregate store.  StationResult mirrors the Go struct (min,
   max, sum, count, all Go int); the mutex field carries no data and
   is omitted.  The Go map[string]*StationResult is modelled as an
   association list from station byte strings to records; distinct
   keys hold distinct records, and updating through a looked-up
   pointer is mapReplace.
   --------------------------------------------------------------- -/

structure StationResult where
  min : Int
  max : Int
  sum : Int
  count : Int
deriving DecidableEq

abbrev TallyMap := List (List Nat × StationResult)

def mapLookup : TallyMap → List Nat → Option StationResult
  | [], _ => none
  | (k, v) :: rest, key => if k = key then some v else mapLookup rest key

def mapReplace : TallyMap → List Nat → StationResult → TallyMap
  | [], _, _ => []
  | (k, v) :: rest, key, r =>
    if k = key then (k, r) :: rest else (k, v) :: mapReplace rest key r

def mapKeys (m : TallyMap) : List (List Nat) :=
  m.map Prod.fst

/-- The guarded update block of parseLines (identical in both files):
if temp greater than max then max := temp; if temp less than min then
min := temp; count increments; sum accumulates. -/
def updateResult (r : StationResult) (t : Int) : StationResult :=
  { min := if t < r.min then t else r.min
  , max := if t > r.max then t else r.max
  , sum := r.sum + t
  , count := r.count + 1 }

/-- One iteration of the scanner loop of parseLines, parameterised by
the temperature parser (the only difference between the two files).
The line is scanned for the rightmost ';'; with no delimiter the line
is skipped.  The station key is the bytes before the delimiter and the
temperature the parse of the bytes after it.  The map is consulted:
when the key is present the record it points to is updated in place;
when absent a fresh zero record is created and updated, but the source
contains no statement inserting it into FinalTally.results, so the
updated record is discarded and the map is returned unchanged. -/
def processLineWith (parse : List Nat → Int) (m : TallyMap) (b : List Nat) : TallyMap :=
  match lastSemiIdx b with
  | none => m
  | some idx =>
    let station := b.take idx
    let stationTemp := parse (b.drop (idx + 1))
    match mapLookup m station with
    | some r => mapReplace m station (updateResult r stationTemp)
    | none =>
      let result := StationResult.mk 0 0 0 0
      let _ := updateResult result stationTemp
      m

def processLine : TallyMap → List Nat → TallyMap :=
  processLineWith parseTempPart

def processLineMain : TallyMap → List Nat → TallyMap :=
  processLineWith parseTempMain

/-- parseLines over one chunk: fold the per-line action over the
scanner tokens of the chunk (part_000 temperature parser). -/
def parseLines (m : TallyMap) (chunk : List Nat) : TallyMap :=
  (splitLines chunk).foldl processLine m

def parseLinesMain (m : TallyMap) (chunk : List Nat) : TallyMap :=
  (splitLines chunk).foldl processLineMain m

/-- The initial FinalTally.results map: empty. -/
def FinalTallyInit : TallyMap := []

/-- parseCh consumes every chunk, one parseLines worker per chunk,
starting from the empty FinalTally.  Modelled as a sequential fold in
one interleaving; since no worker ever inserts a key, the fold is
order-independent here. -/
def parseCh (chunks : List (List Nat)) : TallyMap :=
  chunks.foldl parseLines FinalTallyInit

def parseChMain (chunks : List (List Nat)) : TallyMap :=
  chunks.foldl parseLinesMain FinalTallyInit

/- ---------------------------------------------------------------
   The naive single-threaded fold, the comparator of the refinement
   claim.  This definition follows the words of the specification
   (section 4.4 observe and section 8 naive fold), not the source:
   first observation creates min = max = sum = value, count = 1 and
   inserts it; later observations fold with min, max, sum, count.
   --------------------------------------------------------------- -/

def mapInsert (m : TallyMap) (key : List Nat) (r : StationResult) : TallyMap :=
  (key, r) :: m

def specObserve (m : TallyMap) (station : List Nat) (v : Int) : TallyMap :=
  match mapLookup m station with
  | none => mapInsert m station (StationResult.mk v v v 1)
  | some r =>
    mapReplace m station
      (StationResult.mk (min r.min v) (max r.max v) (r.sum + v) (r.count + 1))

def specParseLine (b : List Nat) : Option (List Nat × Int) :=
  match lastSemiIdx b with
  | none => none
  | some idx => some (b.take idx, parseTempPart (b.drop (idx + 1)))

def specNaiveFold (file : List Nat) : TallyMap :=
  (splitLines file).foldl
    (fun m b =>
      match specParseLine b with
      | none => m
      | some sv => specObserve m sv.1 sv.2) []

/- ---------------------------------------------------------------
   The Chunk Reader: readInFile in both files.

   State carried across loop iterations: the fragment slice (its
   contents, whose length is the Go len), the fragLength variable,
   and the persistent scratch buffer.  Physical reads are modelled
   as the list of byte strings successive calls of filePtr.Read
   return; after the last one, Read reports io.EOF and the loop
   breaks and closes the channel (the recursion ends).

   goCopy is Go copy(dst, src): it overwrites the first
   min(len dst, len src) elements of dst and never extends dst.

   writeAt models reading r into buffer[off:]: the bytes from off on
   are overwritten by r, the rest of the buffer keeps its old (stale)
   contents.
   --------------------------------------------------------------- -/

def goCopy : List Nat → List Nat → List Nat
  | [], _ => []
  | dst, [] => dst
  | _ :: ds, s :: ss => s :: goCopy ds ss

def writeAt (buf : List Nat) (off : Nat) (src : List Nat) : List Nat :=
  buf.take off ++ src ++ buf.drop (off + src.length)

/-- The backward scan for i := n-1; i >= 0; i-- looking for a newline:
the greatest index below n holding byte 10, if any. -/
def lastNewlineBelow (b : List Nat) : Nat → Option Nat
  | 0 => none
  | n + 1 => if b.getD n 0 = 10 then some n else lastNewlineBelow b n

structure ReaderState where
  fragment : List Nat
  fragLength : Nat
  buffer : List Nat

/-- One loop iteration of readInFile in part_000, on a physical read r
(nonempty: a read that returns no bytes reports EOF and is the end of
the recursion instead).  cloneLen is the stale Go length of the slice
BufferPool.Get returns (part_000 does not reslice it to length 0).

Step by step against the source: if the fragment is nonempty,
fragLength := copy(clone, fragment) which copies min(len clone,
len fragment) bytes, and the fragment is resliced to length 0;
otherwise fragLength keeps its previous value.  The read goes into
buffer[fragLength:].  If the byte at index (fragLength+n)-1 is not a
newline, scan backward from n-1 for the last newline: at index i,
copy(fragment, buffer[i:]) (which, into a zero-length fragment, copies
nothing) and truncate n to i.  The chunk sent is clone[0:n] after
copy(clone, buffer[:n]), hence exactly the first n bytes of the
buffer: the fragment bytes copied into clone earlier are overwritten. -/
def stepPart (st : ReaderState) (cloneLen : Nat) (r : List Nat) : ReaderState × List Nat :=
  let fragLength1 :=
    if 0 < st.fragment.length then min cloneLen st.fragment.length else st.fragLength
  let frag1 : List Nat := if 0 < st.fragment.length then [] else st.fragment
  let n0 := r.length
  let buf1 := writeAt st.buffer fragLength1 r
  let res :=
    if buf1.getD ((fragLength1 + n0) - 1) 0 ≠ 10 then
      match lastNewlineBelow buf1 n0 with
      | some i => (i, goCopy frag1 (buf1.drop i))
      | none => (n0, frag1)
    else (n0, frag1)
  (ReaderState.mk res.2 fragLength1 buf1, buf1.take res.1)

/-- One loop iteration of readInFile in main.go.  Differences from
part_000: clone := BufferPool.Get().([]byte)[0:0] has length 0, so
fragLength := copy(clone, fragment) is 0 whenever the fragment is
nonempty; the newline test reads buffer[n-1] (not fragLength+n-1);
and the chunk sent is clone itself, never resliced, after
copy(clone, buffer[:n]) which into a zero-length clone copies
nothing, so every emitted chunk has length 0. -/
def stepMain (st : ReaderState) (r : List Nat) : ReaderState × List Nat :=
  let fragLength1 :=
    if 0 < st.fragment.length then min 0 st.fragment.length else st.fragLength
  let frag1 : List Nat := if 0 < st.fragment.length then [] else st.fragment
  let n0 := r.length
  let buf1 := writeAt st.buffer fragLength1 r
  let res :=
    if buf1.getD (n0 - 1) 0 ≠ 10 then
      match lastNewlineBelow buf1 n0 with
      | some i => (i, goCopy frag1 (buf1.drop i))
      | none => (n0, frag1)
    else (n0, frag1)
  (ReaderState.mk res.2 fragLength1 buf1, goCopy [] (buf1.take res.1))

def readLoopPart : ReaderState → List (List Nat × Nat) → List (List Nat)
  | _, [] => []
  | st, rc :: rest =>
    (stepPart st rc.2 rc.1).2 :: readLoopPart (stepPart st rc.2 rc.1).1 rest

def readLoopMain : ReaderState → List (List Nat) → List (List Nat)
  | _, [] => []
  | st, r :: rest =>
    (stepMain st r).2 :: readLoopMain (stepMain st r).1 rest

def BUFFER_SIZE_PART : Nat := 1024 * 512

def BUFFER_SIZE_MAIN : Nat := 512 * 512

/-- readInFile of part_000: fragment := make([]byte, 0),
fragLength := 0, buffer := make([]byte, BUFFER_SIZE).  The reads come
paired with the stale lengths of the pool slices Get returns. -/
def readInFilePart (reads : List (List Nat × Nat)) : List (List Nat) :=
  readLoopPart (ReaderState.mk [] 0 (List.replicate BUFFER_SIZE_PART 0)) reads

/-- readInFile of main.go: fragment := make([]byte, 1024),
fragLength := 0, buffer := make([]byte, BUFFER_SIZE). -/
def readInFileMain (reads : List (List Nat)) : List (List Nat) :=
  readLoopMain (ReaderState.mk (List.replicate 1024 0) 0 (List.replicate BUFFER_SIZE_MAIN 0)) reads

/- ---------------------------------------------------------------
   The Buffer Pool.  A slice is a Go length and capacity (chunk
   contents are handled by the reader model above; the pool trades
   only in capacity).  sync.Pool.Get returns a previously Put slice
   when one is available, otherwise the New function allocates a
   fresh one: make([]byte, 0, BUFFER_SIZE), length 0.  main.go then
   reslices the result to [0:0]; part_000 uses it as returned.
   --------------------------------------------------------------- -/

structure GoSlice where
  len : Nat
  cap : Nat
deriving DecidableEq

def poolGet (pool : List GoSlice) (newCap : Nat) : GoSlice × List GoSlice :=
  match pool with
  | [] => (GoSlice.mk 0 newCap, [])
  | b :: rest => (b, rest)

def poolPut (pool : List GoSlice) (b : GoSlice) : List GoSlice :=
  b :: pool

/-- main.go line 207: clone := BufferPool.Get().([]byte)[0:0], a
reslice to length 0 keeping the capacity. -/
def acquireMain (pool : List GoSlice) : GoSlice × List GoSlice :=
  (GoSlice.mk 0 (poolGet pool BUFFER_SIZE_MAIN).1.cap, (poolGet pool BUFFER_SIZE_MAIN).2)

/-- part_000 line 208: clone := BufferPool.Get().([]byte), used with
whatever length it was released at. -/
def acquirePart (pool : List GoSlice) : GoSlice × List GoSlice :=
  poolGet pool BUFFER_SIZE_PART

/- ---------------------------------------------------------------
   The index of the newline test after each physical read, as the Go
   (signed) int expression: main.go reads buffer[n-1], part_000 reads
   buffer[(fragLength+n)-1].
   --------------------------------------------------------------- -/

def checkIdxMain (n : Nat) : Int :=
  (n : Int) - 1

def checkIdxPart (fragLength n : Nat) : Int :=
  ((fragLength : Int) + (n : Int)) - 1

/- ---------------------------------------------------------------
   The decimal formatting of a fixed-point temperature, following the
   words of the spec (format with exactly one fractional digit): the
   integer digits of t/10, a dot, the digit t mod 10, with a leading
   minus sign for negative t.  Used by the round-trip theorem of the
   part_000 parser.
   --------------------------------------------------------------- -/

def intDigitsBytes (q : Nat) : List Nat :=
  (if q = 0 then [0] else Nat.digits 10 q).reverse.map (fun d => d + 48)

def formatTemp (t : Int) : List Nat :=
  (if t < 0 then [45] else []) ++ intDigitsBytes (t.natAbs / 10) ++ [46, t.natAbs % 10 + 48]

/- ---------------------------------------------------------------
   Supporting lemmas.
   --------------------------------------------------------------- -/

theorem parseTempPartAux_nil (acc pow : Int) : parseTempPartAux [] acc pow = acc := rfl

theorem parseTempPartAux_digits (ds : List Nat) (hd : ∀ d ∈ ds, d < 10) :
    ∀ (tail : List Nat) (acc pow : Int),
      parseTempPartAux (ds.map (fun d => d + 48) ++ tail) acc pow
        = parseTempPartAux tail (acc + ((Nat.ofDigits 10 ds : Nat) : Int) * pow)
            (pow * 10 ^ ds.length) := by
  induction ds with
  | nil => intro tail acc pow; simp [Nat.ofDigits_nil]
  | cons d rest ih =>
    intro tail acc pow
    have hd0 : d < 10 := hd d (List.mem_cons_self d rest)
    have h46 : ¬ (d + 48 = 46) := by omega
    have h45 : ¬ (d + 48 = 45) := by omega
    have hmod : (d + 48 + 208) % 256 = d := by omega
    simp only [List.map_cons, List.cons_append, parseTempPartAux, if_neg h46, if_neg h45, hmod,
      List.append_eq]
    rw [ih (fun x hx => hd x (List.mem_cons_of_mem d hx)) tail (acc + (d : Int) * pow) (pow * 10)]
    have hcast : ((Nat.ofDigits 10 (d :: rest) : Nat) : Int)
        = (d : Int) + 10 * ((Nat.ofDigits 10 rest : Nat) : Int) := by
      rw [Nat.ofDigits_cons]; push_cast; ring
    rw [hcast]
    congr 1
    · ring
    · rw [List.length_cons]
      ring

theorem parseTempPartAux_dot (tail : List Nat) (acc pow : Int) :
    parseTempPartAux (46 :: tail) acc pow = parseTempPartAux tail acc pow := by
  simp [parseTempPartAux]

theorem parseTempPartAux_dash (acc pow : Int) :
    parseTempPartAux [45] acc pow = -acc := by
  simp [parseTempPartAux]

/-- Round-trip of the part_000 fixed-point parser: for every value
with one fractional digit (t is that value times ten), parsing its
formatted string returns exactly t, with no floating point involved. -/
theorem parseTempPart_roundtrip (t : Int) : parseTempPart (formatTemp t) = t := by
  have hds : ∀ d ∈ (if t.natAbs / 10 = 0 then [0] else Nat.digits 10 (t.natAbs / 10)), d < 10 := by
    intro d hd
    by_cases h : t.natAbs / 10 = 0
    · rw [if_pos h] at hd; simp at hd; omega
    · rw [if_neg h] at hd; exact Nat.digits_lt_base (by norm_num) hd
  have hof : ((Nat.ofDigits 10 (if t.natAbs / 10 = 0 then [0]
        else Nat.digits 10 (t.natAbs / 10)) : Nat))
      = t.natAbs / 10 := by
    by_cases h : t.natAbs / 10 = 0
    · rw [if_pos h, h]; simp
    · rw [if_neg h]; exact Nat.ofDigits_digits 10 _
  have hone : ∀ (x : Nat), x < 10 →
      ∀ (tail : List Nat) (acc pow : Int),
        parseTempPartAux ((x + 48) :: tail) acc pow
          = parseTempPartAux tail (acc + (x : Int) * pow) (pow * 10) := by
    intro x hx tail acc pow
    have h46 : ¬ (x + 48 = 46) := by omega
    have h45 : ¬ (x + 48 = 45) := by omega
    have hmod : (x + 48 + 208) % 256 = x := by omega
    simp only [parseTempPartAux, if_neg h46, if_neg h45, hmod]
  unfold parseTempPart formatTemp intDigitsBytes
  by_cases ht : t < 0
  · simp only [if_pos ht, List.reverse_append, List.map_reverse, List.reverse_reverse,
      List.reverse_cons, List.reverse_nil, List.nil_append, List.cons_append, List.append_assoc]
    rw [hone (t.natAbs % 10) (Nat.mod_lt _ (by norm_num)) _ 0 1, parseTempPartAux_dot,
      parseTempPartAux_digits _ hds, hof, parseTempPartAux_dash]
    omega
  · simp only [if_neg ht, List.reverse_append, List.map_reverse, List.reverse_reverse,
      List.reverse_cons, List.reverse_nil, List.nil_append, List.cons_append, List.append_nil,
      List.append_assoc]
    rw [← List.append_nil (List.map (fun d => d + 48)
      (if t.natAbs / 10 = 0 then [0] else Nat.digits 10 (t.natAbs / 10)))]
    rw [hone (t.natAbs % 10) (Nat.mod_lt _ (by norm_num)) _ 0 1, parseTempPartAux_dot,
      parseTempPartAux_digits _ hds, hof, parseTempPartAux_nil]
    omega

theorem mapReplace_keys (m : TallyMap) (key : List Nat) (r : StationResult) :
    mapKeys (mapReplace m key r) = mapKeys m := by
  induction m with
  | nil => rfl
  | cons p rest ih =>
    rcases p with ⟨k, v⟩
    by_cases h : k = key
    · simp [mapReplace, h, mapKeys]
    · simp only [mapReplace, if_neg h, mapKeys, List.map_cons]
      simp only [mapKeys] at ih
      rw [ih]

theorem processLineWith_keys (p : List Nat → Int) (m : TallyMap) (b : List Nat) :
    mapKeys (processLineWith p m b) = mapKeys m := by
  rcases hs : lastSemiIdx b with _ | idx
  · simp [processLineWith, hs]
  · rcases hl : mapLookup m (List.take idx b) with _ | r
    · simp [processLineWith, hs, hl]
    · simp [processLineWith, hs, hl, mapReplace_keys]

theorem processLineWith_nil (p : List Nat → Int) (b : List Nat) :
    processLineWith p [] b = [] := by
  rcases hs : lastSemiIdx b with _ | idx <;> simp [processLineWith, hs, mapLookup]

theorem foldl_nil_of (f : TallyMap → List Nat → TallyMap) (hf : ∀ c, f [] c = []) :
    ∀ l : List (List Nat), List.foldl f [] l = [] := by
  intro l
  induction l with
  | nil => rfl
  | cons c cs ih => rw [List.foldl_cons, hf c]; exact ih

theorem parseLines_nil (c : List Nat) : parseLines [] c = [] :=
  foldl_nil_of (processLineWith parseTempPart) (processLineWith_nil parseTempPart) (splitLines c)

theorem parseLinesMain_nil (c : List Nat) : parseLinesMain [] c = [] :=
  foldl_nil_of (processLineWith parseTempMain) (processLineWith_nil parseTempMain) (splitLines c)

theorem lastSemiAux_no_semi :
    ∀ (l : List Nat) (i : Nat) (r : Option Nat), 59 ∉ l → lastSemiAux l i r = r := by
  intro l
  induction l with
  | nil => intro i r _; rfl
  | cons c rest ih =>
    intro i r h
    have hc : ¬ c = 59 := fun e => h (e ▸ List.mem_cons_self c rest)
    simp only [lastSemiAux, if_neg hc]
    exact ih (i + 1) r fun hm => h (List.mem_cons_of_mem c hm)

theorem lastSemiIdx_none (b : List Nat) (h : 59 ∉ b) : lastSemiIdx b = none :=
  lastSemiAux_no_semi b 0 none h

theorem processLine_no_semi (m : TallyMap) (b : List Nat) (h : 59 ∉ b) :
    processLine m b = m := by
  show processLineWith parseTempPart m b = m
  simp [processLineWith, lastSemiIdx_none b h]

/- ---------------------------------------------------------------
   The claims.
   --------------------------------------------------------------- -/

/-- Claim C1: the claim states that the per-station aggregate of the
concurrent pipeline equals the naive single-threaded fold, with no
lost updates.  The code refutes it: parseLines never inserts a newly
created StationResult into FinalTally.results, so on the one-line file
Oslo;5.2 the pipeline ends with the empty map while the naive fold
(defined from the words of the spec) holds Oslo with
min = max = sum = 52, count = 1. -/
theorem pipeline_loses_all_updates :
    parseCh [[79, 115, 108, 111, 59, 53, 46, 50, 10]] = [] ∧
    specNaiveFold [79, 115, 108, 111, 59, 53, 46, 50, 10] =
      [([79, 115, 108, 111], StationResult.mk 52 52 52 1)] ∧
    ([] : TallyMap) ≠ [([79, 115, 108, 111], StationResult.mk 52 52 52 1)] := by
  exact ⟨by decide, by decide, by decide⟩

/-- Claim C2: the claim states that a first observation creates the
aggregate as min = max = sum = value, count = 1, so a one-line file
has min = max = mean = value.  The code refutes it: the fresh record
is StationResult{0, 0, 0, 0}, then folded (so min stays 0 for the
positive value 34 while max becomes 34), and it is never stored: the
one-line file Paris;3.4 leaves the map empty. -/
theorem first_observation_zero_initialized_and_discarded :
    updateResult (StationResult.mk 0 0 0 0) 34 = StationResult.mk 0 34 34 1 ∧
    (updateResult (StationResult.mk 0 0 0 0) 34).min ≠
      (updateResult (StationResult.mk 0 0 0 0) 34).max ∧
    parseCh [[80, 97, 114, 105, 115, 59, 51, 46, 52, 10]] = [] := by
  decide

/-- Claim C3: the claim states that the right-to-left parse returns
the temperature times ten.  part_000 does (52 for the bytes of 5.2),
but main.go does not: its exponent variable is declared inside the
loop so it is always 0, the weight 10 XOR 0 = 10 is used for every
digit, and the raw ASCII codes are accumulated, giving 1030 for the
same bytes. -/
theorem parseTempMain_wrong_at_five_point_two :
    parseTempMain [53, 46, 50] = 1030 ∧
    parseTempPart [53, 46, 50] = 52 ∧ (1030 : Int) ≠ 52 := by
  decide

/-- Claim C4: the parse workers never insert into the shared results
map: for every input the pipeline ends with FinalTally.results still
empty (both files), and the per-line step never changes the key set of
the map it is given. -/
theorem results_map_never_written :
    (∀ chunks : List (List Nat), parseCh chunks = [] ∧ parseChMain chunks = []) ∧
    (∀ (p : List Nat → Int) (m : TallyMap) (b : List Nat),
      mapKeys (processLineWith p m b) = mapKeys m) := by
  constructor
  · intro chunks
    constructor
    · show List.foldl parseLines [] chunks = []
      exact foldl_nil_of parseLines parseLines_nil chunks
    · show List.foldl parseLinesMain [] chunks = []
      exact foldl_nil_of parseLinesMain parseLinesMain_nil chunks
  · exact processLineWith_keys

/-- Claim C5: the claim states that every chunk except possibly one at
end-of-file ends with a newline and starts at a line boundary.  The
code refutes it: on the reads A;1.0(nl)B then C;2.0(nl), part_000
emits first the chunk A;1.0 - not newline-terminated although it is
not the final chunk - because the truncation sets n to the index of
the newline, excluding it, and the fragment carry is a no-op copy into
a zero-length slice; the following chunk then starts mid-line. -/
theorem chunk_without_trailing_newline :
    readInFilePart [([65, 59, 49, 46, 48, 10, 66], 0), ([67, 59, 50, 46, 48, 10], 0)] =
      [[65, 59, 49, 46, 48], [67, 59, 50, 46, 48, 10]] ∧
    List.getLast? [65, 59, 49, 46, 48] ≠ some 10 :=
  ⟨rfl, by decide⟩

/-- Claim C6: the claim states that concatenating all emitted chunks
reproduces the file minus at most a final unterminated fragment.  The
code refutes it: for the file X;1.0(nl)YZ;2.0(nl) delivered in the two
reads X;1.0(nl)Y and Z;2.0(nl) - a file that ends with a newline, so
nothing may be missing - part_000 emits X;1.0 and Z;2.0(nl), losing
the interior bytes (nl)Y, and main.go emits only empty chunks because
copy into its zero-length clone copies nothing. -/
theorem chunk_concat_loses_interior_bytes :
    List.flatten (readInFilePart [([88, 59, 49, 46, 48, 10, 89], 0), ([90, 59, 50, 46, 48, 10], 0)]) =
      [88, 59, 49, 46, 48, 90, 59, 50, 46, 48, 10] ∧
    [88, 59, 49, 46, 48, 90, 59, 50, 46, 48, 10] ≠
      ([88, 59, 49, 46, 48, 10, 89] ++ [90, 59, 50, 46, 48, 10] : List Nat) ∧
    List.flatten (readInFileMain [[88, 59, 49, 46, 48, 10, 89], [90, 59, 50, 46, 48, 10]]) = [] ∧
    ([] : List Nat) ≠ ([88, 59, 49, 46, 48, 10, 89] ++ [90, 59, 50, 46, 48, 10] : List Nat) :=
  ⟨rfl, by decide, rfl, by decide⟩

/-- Claim C7: a line with no semicolon is silently skipped: it leaves
every aggregate untouched and the fold over the remaining lines is
unchanged. -/
theorem line_without_delimiter_skipped (m : TallyMap) (pre post : List (List Nat))
    (l : List Nat) (h : 59 ∉ l) :
    List.foldl processLine m (pre ++ l :: post) = List.foldl processLine m (pre ++ post) := by
  rw [List.foldl_append, List.foldl_append, List.foldl_cons,
    processLine_no_semi (List.foldl processLine m pre) l h]

/-- Witness for claim C7 at a concrete malformed line (Oslo with no
delimiter) and a nonempty aggregate map. -/
theorem line_without_delimiter_skipped_witness :
    List.foldl processLine [([79], StationResult.mk 1 2 3 4)]
        (([] : List (List Nat)) ++ [79, 115, 108, 111] :: []) =
      List.foldl processLine [([79], StationResult.mk 1 2 3 4)] (([] : List (List Nat)) ++ []) :=
  line_without_delimiter_skipped [([79], StationResult.mk 1 2 3 4)] [] [] [79, 115, 108, 111]
    (by decide)

/-- Claim C8: at end-of-file the reader terminates the chunk sequence
(the loop breaks and the channel closes: the recursion ends, emitting
nothing further for any state), whatever the fragment holds is dropped
rather than flushed (the fragment of the successor state is moreover
always empty), and the empty input yields no chunks and an empty
aggregate map. -/
theorem eof_closes_and_drops_fragment :
    readInFilePart [] = [] ∧ readInFileMain [] = [] ∧
    (∀ st : ReaderState, readLoopPart st [] = [] ∧ readLoopMain st [] = []) ∧
    (∀ (st : ReaderState) (cl : Nat) (r : List Nat),
      st.fragment = [] → ((stepPart st cl r).1).fragment = []) ∧
    parseCh (readInFilePart []) = [] := by
  refine ⟨rfl, rfl, fun st => ⟨rfl, rfl⟩, ?_, rfl⟩
  intro st cl r h
  simp only [stepPart, h, List.length_nil, Nat.lt_irrefl, ite_self, ite_false]
  split
  · split
    · simp [goCopy]
    · rfl
  · rfl

/-- Witness for claim C8 at a concrete state and read. -/
theorem eof_closes_and_drops_fragment_witness :
    ((stepPart (ReaderState.mk [] 0 []) 0 [65]).1).fragment = [] :=
  eof_closes_and_drops_fragment.2.2.2.1 (ReaderState.mk [] 0 []) 0 [65] rfl

/-- Claim C9, counterexample: part_000 acquires with
BufferPool.Get().([]byte) without reslicing, so a buffer released at
length 5 is returned with length 5, not as a zero-length view. -/
theorem acquirePart_returns_stale_length :
    (acquirePart (poolPut [] (GoSlice.mk 5 BUFFER_SIZE_PART))).1.len = 5 ∧
    (acquirePart (poolPut [] (GoSlice.mk 5 BUFFER_SIZE_PART))).1.len ≠ 0 := by
  decide

/-- Claim C9 as amended: in main.go the acquire (Get followed by the
reslice [0:0]) returns a zero-length view of capacity BUFFER_SIZE; in
part_000 the Get returns the released buffer exactly as released
(zero-length only when freshly allocated), with capacity BUFFER_SIZE
preserved; releasing pushes the buffer back and a following acquire
can return it. -/
theorem acquire_length_and_capacity (poolM poolP : List GoSlice)
    (hM : ∀ b ∈ poolM, b.cap = BUFFER_SIZE_MAIN)
    (hP : ∀ b ∈ poolP, b.cap = BUFFER_SIZE_PART) :
    ((acquireMain poolM).1.len = 0 ∧ (acquireMain poolM).1.cap = BUFFER_SIZE_MAIN) ∧
    ((acquirePart poolP).1.cap = BUFFER_SIZE_PART ∧
      (poolP = [] → (acquirePart poolP).1.len = 0) ∧
      ∀ b rest, poolP = b :: rest → acquirePart poolP = (b, rest)) ∧
    (∀ (pool : List GoSlice) (b : GoSlice),
      poolPut pool b = b :: pool ∧ acquirePart (poolPut pool b) = (b, pool)) := by
  refine ⟨⟨rfl, ?_⟩, ⟨?_, ?_, ?_⟩, fun pool b => ⟨rfl, rfl⟩⟩
  · cases poolM with
    | nil => rfl
    | cons b rest => exact hM b (List.mem_cons_self b rest)
  · cases poolP with
    | nil => rfl
    | cons b rest => exact hP b (List.mem_cons_self b rest)
  · intro h; subst h; rfl
  · intro b rest h; subst h; rfl

/-- Witness for the amended claim C9 at a pool holding one released
buffer of length 7 for main.go and the empty pool for part_000. -/
theorem acquire_length_and_capacity_witness :
    ((acquireMain [GoSlice.mk 7 BUFFER_SIZE_MAIN]).1.len = 0 ∧
      (acquireMain [GoSlice.mk 7 BUFFER_SIZE_MAIN]).1.cap = BUFFER_SIZE_MAIN) ∧
    ((acquirePart []).1.cap = BUFFER_SIZE_PART ∧
      (([] : List GoSlice) = [] → (acquirePart []).1.len = 0) ∧
      ∀ b rest, ([] : List GoSlice) = b :: rest → acquirePart [] = (b, rest)) ∧
    (∀ (pool : List GoSlice) (b : GoSlice),
      poolPut pool b = b :: pool ∧ acquirePart (poolPut pool b) = (b, pool)) :=
  acquire_length_and_capacity [GoSlice.mk 7 BUFFER_SIZE_MAIN] []
    (by
      intro b hb
      rw [List.mem_singleton] at hb
      subst hb
      rfl)
    (fun b hb => absurd hb (List.not_mem_nil b))

/-- Claim C10: the newline test after a physical read indexes
buffer[n-1] in main.go and buffer[(fragLength+n)-1] in part_000; when
the read delivers at least one byte and fits the buffer the index is
in range (and writing the read keeps the buffer length), while a read
returning zero bytes without end-of-file makes the index -1, out of
range. -/
theorem read_index_bounds (f n B : Nat) (r : List Nat)
    (hn : 1 ≤ n) (hB : f + n ≤ B) (hr : r.length = n) :
    (0 ≤ checkIdxPart f n ∧ checkIdxPart f n < (B : Int)) ∧
    (0 ≤ checkIdxMain n ∧ checkIdxMain n < (B : Int)) ∧
    (writeAt (List.replicate B 0) f r).length = B ∧
    checkIdxMain 0 = -1 ∧ checkIdxPart 0 0 = -1 := by
  refine ⟨⟨?_, ?_⟩, ⟨?_, ?_⟩, ?_, by decide, by decide⟩
  · simp only [checkIdxPart]; omega
  · simp only [checkIdxPart]; omega
  · simp only [checkIdxMain]; omega
  · simp only [checkIdxMain]; omega
  · simp only [writeAt, List.length_append, List.length_take, List.length_drop,
      List.length_replicate, hr]
    omega

/-- Witness for claim C10 at a one-byte read at offset zero into the
main.go buffer. -/
theorem read_index_bounds_witness :
    (0 ≤ checkIdxPart 0 1 ∧ checkIdxPart 0 1 < (BUFFER_SIZE_MAIN : Int)) ∧
    (0 ≤ checkIdxMain 1 ∧ checkIdxMain 1 < (BUFFER_SIZE_MAIN : Int)) ∧
    (writeAt (List.replicate BUFFER_SIZE_MAIN 0) 0 [65]).length = BUFFER_SIZE_MAIN ∧
    checkIdxMain 0 = -1 ∧ checkIdxPart 0 0 = -1 :=
  read_index_bounds 0 1 BUFFER_SIZE_MAIN [65] (by decide) (by decide) rfl
